import Mathlib

/-!
Verification of the md_converter preprocessing and batch orchestration
pipeline (converter/paths.py, converter/frontmatter.py,
converter/mermaid_processor.py, converter/batch_service.py).

Strings are modelled as `List Char` (the sequence of code points of the
Python `str`).  File-system paths are modelled as a directory component
list plus a file name.  The file-system itself is modelled as the list of
paths that currently exist on disk.
-/

namespace MdConverter

/-- Sequence of characters of a Python `str`. -/
abbrev Str := List Char

/-- Character list of a Lean string literal. -/
def str (s : String) : Str := s.data

/-! ### Decimal numerals

`toDecimal n` is the decimal numeral that Python's `str(int)` / f-string
formatting produces.  It is defined with an explicit fuel argument so that
it is structurally recursive; `toDecimal_fuel` shows the fuel is
irrelevant once it exceeds the argument. -/

/-- Decimal digit character for a value below ten. -/
def digitChar : Nat → Char
  | 0 => '0' | 1 => '1' | 2 => '2' | 3 => '3' | 4 => '4'
  | 5 => '5' | 6 => '6' | 7 => '7' | 8 => '8' | _ => '9'

/-- Fuelled decimal rendering; fuel `n + 1` always suffices for `n`. -/
def toDecimalAux : Nat → Nat → Str
  | 0, _ => []
  | fuel + 1, n =>
    if n < 10 then [digitChar n]
    else toDecimalAux fuel (n / 10) ++ [digitChar (n % 10)]

/-- Decimal numeral of a natural number, as Python's `str(n)` renders it. -/
def toDecimal (n : Nat) : Str := toDecimalAux (n + 1) n

/-- Value of a digit string, used to invert `toDecimal`. -/
def valDecimal (s : Str) : Nat := s.foldl (fun a c => 10 * a + (c.toNat - 48)) 0

/-! ### String helpers shared by several components -/

/-- Python `\s` on the ASCII fragment modelled here. -/
def isPySpace (c : Char) : Bool :=
  c = ' ' || c = '\t' || c = '\n' || c = '\r' || c = '\x0b' || c = '\x0c'

/-- Python word character (`\w`) on the ASCII fragment modelled here. -/
def isPyWord (c : Char) : Bool := c.isAlphanum || c = '_'

/-- Replaces every maximal nonempty run of characters satisfying `p` by the
single character `r` (the effect of `re.sub(p+, r, s)`).  The boolean flag
records whether the previous character belonged to a run. -/
def collapseRunsAux (p : Char → Bool) (r : Char) : Bool → Str → Str
  | _, [] => []
  | inRun, c :: cs =>
    if p c then
      if inRun then collapseRunsAux p r true cs
      else r :: collapseRunsAux p r true cs
    else c :: collapseRunsAux p r false cs

/-- Effect of `re.sub(p+, r, s)` for a character class `p`. -/
def collapseRuns (p : Char → Bool) (r : Char) (s : Str) : Str :=
  collapseRunsAux p r false s

/-- Python `s.strip(c)` for a single strip character. -/
def stripChar (c : Char) (s : Str) : Str :=
  ((s.dropWhile (· = c)).reverse.dropWhile (· = c)).reverse

/-- Python `s.rstrip(c)` for a single strip character. -/
def rstripChar (c : Char) (s : Str) : Str :=
  (s.reverse.dropWhile (· = c)).reverse

/-- Python `s.strip()` (whitespace strip). -/
def pyStrip (s : Str) : Str :=
  ((s.dropWhile isPySpace).reverse.dropWhile isPySpace).reverse

/-- Python `sep.join(parts)` for a single-character separator. -/
def joinChar (sep : Char) : List Str → Str
  | [] => []
  | [x] => x
  | x :: xs => x ++ sep :: joinChar sep xs

/-- Accumulator-based worker for Python `s.split(sep)`. -/
def splitAux (sep : Char) (acc : Str) : Str → List Str
  | [] => [acc.reverse]
  | c :: cs =>
    if c = sep then acc.reverse :: splitAux sep [] cs
    else splitAux sep (c :: acc) cs

/-- Python `s.split(sep)` for a single-character separator. -/
def splitOnChar (sep : Char) (s : Str) : List Str := splitAux sep [] s

/-- Python `s.isdigit()` (restricted to ASCII decimal digits). -/
def pyIsDigit (s : Str) : Bool := !s.isEmpty && s.all Char.isDigit

/-! ### converter/paths.py -/

/-- Translation of `paths.slugify`.  `unicodedata.normalize("NFKD", ·)` is
the identity on the ASCII fragment modelled here, so the normalization
step is omitted. -/
def slugify (text : Str) (maxLength : Nat := 100) : Str :=
  if text = [] then []
  else
    let t1 := text.map Char.toLower
    let t2 := collapseRuns (fun c => isPySpace c || c = '_') '-' t1
    let t3 := t2.filter (fun c => isPyWord c || c = '-')
    let t4 := collapseRuns (fun c => c = '-') '-' t3
    let t5 := stripChar '-' t4
    if maxLength < t5.length then rstripChar '-' (t5.take maxLength) else t5

/-- Extension computed by `get_output_filename`:
`f".{output_format}" if not output_format.startswith(".") else output_format`. -/
def extensionOf (fmt : Str) : Str :=
  match fmt with
  | '.' :: _ => fmt
  | _ => '.' :: fmt

/-- The literal placeholder `\x7btitle\x7d` used by naming patterns. -/
def titlePlaceholder : Str := ['\x7b', 't', 'i', 't', 'l', 'e', '\x7d']

/-- Effect of `pattern.format(title=rep)`: every occurrence of the title
placeholder is replaced by `rep` (other `str.format` features are not used
by the repository). -/
def substTitle (rep : Str) : Str → Str
  | '\x7b' :: 't' :: 'i' :: 't' :: 'l' :: 'e' :: '\x7d' :: rest => rep ++ substTitle rep rest
  | c :: rest => c :: substTitle rep rest
  | [] => []

/-- Python `"." in s`. -/
def hasDot (s : Str) : Bool := s.contains '.'

/-- Python `s.rsplit(".", 1)[0]` assuming a dot occurs: everything before
the last dot. -/
def beforeLastDot (s : Str) : Str :=
  (((s.reverse.dropWhile (· ≠ '.'))).drop 1).reverse

/-- Python `s.endswith(t)`. -/
def endsWith (s t : Str) : Bool := t.isSuffixOf s

/-- Translation of `paths.get_output_filename`.  `stem` is
`input_file.stem`; `title` and `pattern` are optional strings whose Python
truthiness (`None` and `""` both falsy) is tested exactly as in the
source. -/
def getOutputFilename (stem : Str) (title : Option Str)
    (pattern : Option Str) (fmt : Str) : Str :=
  let extension := extensionOf fmt
  let titleVal := title.getD []
  let patternVal := pattern.getD []
  if patternVal ≠ [] ∧ titleVal ≠ [] then
    let filename := substTitle (slugify titleVal) patternVal
    if endsWith filename extension then filename
    else
      let base := if hasDot filename then beforeLastDot filename else filename
      base ++ extension
  else if titleVal ≠ [] then
    slugify titleVal ++ extension
  else
    stem ++ extension

/-! ### File-system paths

A path is a directory (list of components) plus a file name.  The disk is
modelled as the list of paths that currently exist. -/

/-- File-system path: directory components plus file name. -/
structure FsPath where
  dir : List Str
  name : Str
deriving DecidableEq

/-- Index of the last dot of a name, if any. -/
def lastDotIdx (s : Str) : Option Nat :=
  (s.reverse.findIdx? (· = '.')).map (fun j => s.length - 1 - j)

/-- The `pathlib` split of a file name into `stem` and `suffix`: the
suffix is nonempty exactly when the last dot is neither the first nor the
last character. -/
def splitNameExt (name : Str) : Str × Str :=
  match lastDotIdx name with
  | some i =>
    if 0 < i ∧ i < name.length - 1 then (name.take i, name.drop i) else (name, [])
  | none => (name, [])

/-! ### Collision resolution (batch_service.convert_batch, lines 145-166) -/

/-- Stem with an existing numeric counter suffix removed:
`if "_" in stem and stem.split("_")[-1].isdigit(): stem = "_".join(stem.split("_")[:-1])`. -/
def stripCounterStem (stem : Str) : Str :=
  let parts := splitOnChar '_' stem
  if '_' ∈ stem ∧ pyIsDigit (parts.getLastD []) then
    joinChar '_' parts.dropLast
  else stem

/-- Candidate path probed by the collision loop:
`output_subdir / f"{base_stem}_{counter}{suffix}"`. -/
def collisionCandidate (dir : List Str) (stemB suffix : Str) (c : Nat) : FsPath :=
  ⟨dir, stemB ++ '_' :: toDecimal c ++ suffix⟩

/-- Acceptance test of the collision loop:
`candidate not in used_output_files and (overwrite or not candidate.exists())`. -/
def candidateOk (used disk : List FsPath) (overwrite : Bool) (p : FsPath) : Bool :=
  !decide (p ∈ used) && (overwrite || !decide (p ∈ disk))

/-- Fuelled translation of the `while True` probe loop.  The loop in the
source is unbounded; `probeAux_finds` below shows that the fuel passed by
`resolveCollision` always suffices, so the fuel-exhaustion branch is
unreachable and the function agrees with the source loop. -/
def probeAux (ok : FsPath → Bool) (cand : Nat → FsPath) : Nat → Nat → FsPath
  | 0, c => cand c
  | fuel + 1, c => if ok (cand c) then cand c else probeAux ok cand fuel (c + 1)

/-- Translation of the collision-resolution block: strip a numeric
counter suffix from the stem, then probe `stem_2`, `stem_3`, … -/
def resolveCollision (used disk : List FsPath) (overwrite : Bool) (base : FsPath) : FsPath :=
  let (stem0, suffix) := splitNameExt base.name
  let stemB := stripCounterStem stem0
  probeAux (candidateOk used disk overwrite) (collisionCandidate base.dir stemB suffix)
    (used.length + disk.length + 1) 2

/-! ### converter/batch_service.py — BatchService.convert_batch

The directory enumeration is modelled by the list `docs` of discovered
Markdown files (in glob order).  Per document, `parse` is the outcome of
`parse_frontmatter(md_file)`: either the optional title, or the message of
a raised `FrontmatterError`.  Conversion outcomes are supplied by the
oracle `conv`; a successful conversion creates its output file on disk.
`mkdir` calls are modelled as succeeding. -/

instance exceptDecEq {ε α : Type} [DecidableEq ε] [DecidableEq α] :
    DecidableEq (Except ε α)
  | .ok a, .ok b =>
    if h : a = b then isTrue (by rw [h]) else isFalse (fun hc => h (Except.ok.inj hc))
  | .ok _, .error _ => isFalse (fun h => Except.noConfusion h)
  | .error _, .ok _ => isFalse (fun h => Except.noConfusion h)
  | .error a, .error b =>
    if h : a = b then isTrue (by rw [h]) else isFalse (fun hc => h (Except.error.inj hc))

/-- One Markdown file discovered by the batch walk. -/
structure BatchDoc where
  /-- File name, reported in error entries (`md_file`). -/
  src : Str
  /-- Base name without extension (`md_file.stem`). -/
  stem : Str
  /-- Extra output-directory components in recursive mode
  (`relative_path.parent`); empty otherwise. -/
  relParent : List Str
  /-- Outcome of `parse_frontmatter(md_file)`: the frontmatter title, or
  the message of the raised error. -/
  parse : Except Str (Option Str)
deriving DecidableEq

/-- Mutable state of one batch run, with an instrumentation log of
conversion attempts `(md_file, format, output path, succeeded)`. -/
structure BatchState where
  used : List FsPath
  disk : List FsPath
  successful : Nat
  skipped : Nat
  failed : Nat
  errors : List (Str × Str)
  log : List (Str × Str × FsPath × Bool)
deriving DecidableEq

/-- Conversion oracle: `conv src fmt out` is the outcome of
`self.converter.convert(input_path=src, output_path=out, ...)`. -/
abbrev ConvOracle := Str → Str → FsPath → Except Str Unit

/-- Base candidate path of one (document, format) item:
`output_subdir / get_output_filename(md_file, title, output_format=fmt)`. -/
def baseCandidate (doc : BatchDoc) (title : Option Str) (outSubdir : List Str)
    (fmt : Str) : FsPath :=
  ⟨outSubdir, getOutputFilename doc.stem title none fmt⟩

/-- Translation of the body of the per-format loop (batch_service.py
lines 124-206): skip checks, collision resolution, conversion, and the
batch-level exception handler. -/
def processItem (overwrite : Bool) (conv : ConvOracle) (doc : BatchDoc)
    (title : Option Str) (outSubdir : List Str) (fmt : Str) (st : BatchState) :
    BatchState :=
  let base : FsPath := baseCandidate doc title outSubdir fmt
  if base ∈ st.disk ∧ overwrite = false ∧ base ∉ st.used then
    { st with skipped := st.skipped + 1 }
  else
    let out := if base ∈ st.used then resolveCollision st.used st.disk overwrite base else base
    if out ∈ st.disk ∧ overwrite = false ∧ out ∉ st.used then
      { st with skipped := st.skipped + 1 }
    else
      match conv doc.src fmt out with
      | .ok _ =>
        { st with
          used := out :: st.used
          disk := out :: st.disk
          successful := st.successful + 1
          log := st.log ++ [(doc.src, fmt, out, true)] }
      | .error msg =>
        { st with
          failed := st.failed + 1
          errors := st.errors ++ [(doc.src, fmt ++ ':' :: ' ' :: msg)]
          log := st.log ++ [(doc.src, fmt, out, false)] }

/-- Translation of the per-document body: `parse_frontmatter` runs before
the per-format loop and outside its `try` block, so its error aborts the
whole batch. -/
def processDoc (outputDir : List Str) (overwrite : Bool) (conv : ConvOracle)
    (fmts : List Str) (doc : BatchDoc) (st : BatchState) : Except Str BatchState :=
  match doc.parse with
  | .error e => .error e
  | .ok title =>
    .ok (fmts.foldl
      (fun st2 fmt => processItem overwrite conv doc title (outputDir ++ doc.relParent) fmt st2)
      st)

/-- Document loop of `convert_batch`. -/
def runBatchDocs (outputDir : List Str) (overwrite : Bool) (conv : ConvOracle)
    (fmts : List Str) : List BatchDoc → BatchState → Except Str BatchState
  | [], st => .ok st
  | doc :: docs, st =>
    match processDoc outputDir overwrite conv fmts doc st with
    | .error e => .error e
    | .ok st' => runBatchDocs outputDir overwrite conv fmts docs st'

/-- Format-list defaulting of `convert_batch`: empty means `["docx"]`,
otherwise every format is lowercased. -/
def normalizeFormats (formats : List Str) : List Str :=
  if formats = [] then [str "docx"] else formats.map (List.map Char.toLower)

/-- Initial batch state over the pre-existing files `initDisk`. -/
def initState (initDisk : List FsPath) : BatchState :=
  ⟨[], initDisk, 0, 0, 0, [], []⟩

/-- Translation of `BatchService.convert_batch` after input validation and
file enumeration. -/
def runBatch (outputDir : List Str) (overwrite : Bool) (formats : List Str)
    (conv : ConvOracle) (docs : List BatchDoc) (initDisk : List FsPath) :
    Except Str BatchState :=
  runBatchDocs outputDir overwrite conv (normalizeFormats formats) docs (initState initDisk)

/-- Output paths of the successful conversion attempts in a log. -/
def successPaths (log : List (Str × Str × FsPath × Bool)) : List FsPath :=
  log.filterMap (fun e => if e.2.2.2 = true then some e.2.2.1 else none)

/-- Invariant carried through a batch run: failures are counted by the
error list, pre-existing files stay on disk, without `overwrite` no logged
attempt targets a pre-existing file, and the successful attempts target
pairwise distinct paths, all of which are claimed. -/
def BatchInv (overwrite : Bool) (initDisk : List FsPath) (st : BatchState) : Prop :=
  st.failed = st.errors.length ∧
  (∀ p ∈ initDisk, p ∈ st.disk) ∧
  (overwrite = false → ∀ e ∈ st.log, e.2.2.1 ∉ initDisk) ∧
  (∀ p ∈ successPaths st.log, p ∈ st.used) ∧
  (successPaths st.log).Nodup

/-- Sum of the three outcome counters. -/
def sumC (st : BatchState) : Nat := st.successful + st.skipped + st.failed

/-! ### converter/frontmatter.py — date normalization

`_normalize_date` tries `datetime.strptime` with five fixed formats.  The
directive regexes of CPython's `_strptime` are modelled on their ASCII
fragment: `%Y` is exactly four digits, `%m` is `1[0-2]|0[1-9]|[1-9]`, `%d`
is `3[01]|[12]\d|0[1-9]|[1-9]`, and the whole string must be consumed.
`datetime` then rejects year 0 and out-of-range days.  `strftime` output
is modelled zero-padded as documented (`%Y` four digits, `%m`/`%d` two). -/

/-- Numeric value of an ASCII digit character. -/
def dval (c : Char) : Nat := c.toNat - 48

/-- ASCII digit test used by the date-directive regexes. -/
def isDig (c : Char) : Bool := 48 ≤ c.toNat && c.toNat ≤ 57

/-- The `%Y` directive: exactly four digits. -/
def parseYear4 : Str → Option (Nat × Str)
  | a :: b :: c :: d :: rest =>
    if isDig a && isDig b && isDig c && isDig d then
      some (1000 * dval a + 100 * dval b + 10 * dval c + dval d, rest)
    else none
  | _ => none

/-- The `%m` directive: `1[0-2]|0[1-9]|[1-9]`, alternatives tried in
order (backtracking is never needed because every following literal is a
non-digit separator). -/
def parseMonth : Str → Option (Nat × Str)
  | '1' :: c :: rest =>
    if 48 ≤ c.toNat ∧ c.toNat ≤ 50 then some (10 + dval c, rest)
    else some (1, c :: rest)
  | '0' :: c :: rest =>
    if 49 ≤ c.toNat ∧ c.toNat ≤ 57 then some (dval c, rest) else none
  | c :: rest =>
    if 49 ≤ c.toNat ∧ c.toNat ≤ 57 then some (dval c, rest) else none
  | [] => none

/-- The `%d` directive: `3[01]|[12]\d|0[1-9]|[1-9]`. -/
def parseDay : Str → Option (Nat × Str)
  | '3' :: c :: rest =>
    if 48 ≤ c.toNat ∧ c.toNat ≤ 49 then some (30 + dval c, rest)
    else some (3, c :: rest)
  | '1' :: c :: rest =>
    if 48 ≤ c.toNat ∧ c.toNat ≤ 57 then some (10 + dval c, rest) else some (1, c :: rest)
  | '2' :: c :: rest =>
    if 48 ≤ c.toNat ∧ c.toNat ≤ 57 then some (20 + dval c, rest) else some (2, c :: rest)
  | '0' :: c :: rest =>
    if 49 ≤ c.toNat ∧ c.toNat ≤ 57 then some (dval c, rest) else none
  | c :: rest =>
    if 49 ≤ c.toNat ∧ c.toNat ≤ 57 then some (dval c, rest) else none
  | [] => none

/-- A literal separator character of a date format. -/
def expectChar (c : Char) : Str → Option Str
  | d :: rest => if d = c then some rest else none
  | [] => none

/-- A format of the shape `%Y<sep>%m<sep>%d`, matched against the whole
string. -/
def parseFmtYMD (sep : Char) (s : Str) : Option (Nat × Nat × Nat) := do
  let (y, s1) ← parseYear4 s
  let s2 ← expectChar sep s1
  let (m, s3) ← parseMonth s2
  let s4 ← expectChar sep s3
  let (d, s5) ← parseDay s4
  if s5 = [] then some (y, m, d) else none

/-- A format of the shape `%d<sep>%m<sep>%Y`, matched against the whole
string. -/
def parseFmtDMY (sep : Char) (s : Str) : Option (Nat × Nat × Nat) := do
  let (d, s1) ← parseDay s
  let s2 ← expectChar sep s1
  let (m, s3) ← parseMonth s2
  let s4 ← expectChar sep s3
  let (y, s5) ← parseYear4 s4
  if s5 = [] then some (y, m, d) else none

/-- Gregorian leap-year rule used by `datetime`. -/
def isLeap (y : Nat) : Bool := y % 4 = 0 && (y % 100 ≠ 0 || y % 400 = 0)

/-- Number of days of a month, as `datetime` validates it. -/
def daysInMonth (y m : Nat) : Nat :=
  if m = 2 then (if isLeap y then 29 else 28)
  else if m = 4 ∨ m = 6 ∨ m = 9 ∨ m = 11 then 30
  else 31

/-- The `datetime(year, month, day)` constructor's validation (year 0,
i.e. below `MINYEAR`, and out-of-range days raise `ValueError`, which
`strptime` re-raises and `_normalize_date` treats as a non-match). -/
def validDate (y m d : Nat) : Bool :=
  1 ≤ y && 1 ≤ m && m ≤ 12 && 1 ≤ d && d ≤ daysInMonth y m

/-- One `datetime.strptime(date_str, fmt)` attempt: directive match plus
`datetime` validation. -/
def checkedParse (p : Str → Option (Nat × Nat × Nat)) (s : Str) : Option (Nat × Nat × Nat) :=
  match p s with
  | some (y, m, d) => if validDate y m d then some (y, m, d) else none
  | none => none

/-- Left-pad with zeros to a given width, as `strftime`'s numeric
directives are documented to do. -/
def padZero (k : Nat) (s : Str) : Str := List.replicate (k - s.length) '0' ++ s

/-- The `parsed.strftime("%Y-%m-%d")` rendering. -/
def fmtDate (y m d : Nat) : Str :=
  padZero 4 (toDecimal y) ++ '-' :: padZero 2 (toDecimal m) ++ '-' :: padZero 2 (toDecimal d)

/-- The `for fmt in formats` loop of `_normalize_date`: the five formats
are tried in order and the first successful parse wins. -/
def tryFormats (s : Str) : Option (Nat × Nat × Nat) :=
  match checkedParse (parseFmtYMD '-') s with
  | some v => some v
  | none =>
    match checkedParse (parseFmtDMY '.') s with
    | some v => some v
    | none =>
      match checkedParse (parseFmtDMY '/') s with
      | some v => some v
      | none =>
        match checkedParse (parseFmtYMD '/') s with
        | some v => some v
        | none => checkedParse (parseFmtDMY '-') s

/-- Translation of `frontmatter._normalize_date`: the five formats are
tried in order; the first match is rendered as `YYYY-MM-DD`; no match (or
an empty string) gives `None`. -/
def normalizeDate (s : Str) : Option Str :=
  if s = [] then none
  else (tryFormats s).map (fun t => fmtDate t.1 t.2.1 t.2.2)

/-- The `date` branch of `_validate_frontmatter`: an empty value defaults
to today's date, a recognized value is normalized, anything else is stored
unchanged (with a warning). -/
def validateDateField (today : Str) (v : Str) : Str :=
  if v = [] then today
  else
    match normalizeDate v with
    | some t => t
    | none => v

/-! ### converter/frontmatter.py — frontmatter extraction -/

/-- Identifier of the key regex `[a-zA-Z_][a-zA-Z0-9_]*`. -/
def isIdentStart (c : Char) : Bool :=
  (65 ≤ c.toNat && c.toNat ≤ 90) || (97 ≤ c.toNat && c.toNat ≤ 122) || c = '_'

/-- Continuation character of the key regex. -/
def isIdentChar (c : Char) : Bool := isIdentStart c || isDig c

/-- Strip one layer of matching single or double quotes, as
`_parse_simple_yaml` does (`value[1:-1]` when both ends are the same
quote). -/
def stripQuotes (v : Str) : Str :=
  match v with
  | c :: _ =>
    if (c = '"' ∧ v.getLast? = some '"') ∨ (c = '\'' ∧ v.getLast? = some '\'') then
      (v.drop 1).dropLast
    else v
  | [] => v

/-- One line of `_parse_simple_yaml`: after stripping, blank lines and
`#` comments are ignored, and a line matches
`^([a-zA-Z_][a-zA-Z0-9_]*)\s*:\s*(.+)$` exactly when it starts with an
identifier, then optional whitespace, then `:`, then at least one
character; the value is the stripped, unquoted remainder. -/
def parseYamlLine (line : Str) : Option (Str × Str) :=
  let l := pyStrip line
  match l with
  | [] => none
  | c :: rest =>
    if c = '#' then none
    else if isIdentStart c then
      let key := c :: rest.takeWhile isIdentChar
      let afterKey := rest.dropWhile isIdentChar
      match afterKey.dropWhile isPySpace with
      | ':' :: afterColon =>
        if afterColon = [] then none
        else some (key, stripQuotes (pyStrip afterColon))
      | _ => none
    else none

/-- Key-value pairs scanned by `_parse_simple_yaml`, in line order. -/
def yamlPairs (text : Str) : List (Str × Str) :=
  (splitOnChar '\n' text).filterMap parseYamlLine

/-- Last value assigned to a key (Python dict semantics: later lines win). -/
def lookupLast (k : Str) (ps : List (Str × Str)) : Option Str :=
  ((ps.filter (fun p => p.1 = k)).getLast?).map Prod.snd

/-- Container mirroring `FrontmatterData`: the seven optional fields. -/
structure FrontmatterData where
  title : Option Str
  subtitle : Option Str
  author : Option Str
  version : Option Str
  date : Option Str
  customer : Option Str
  project : Option Str
deriving DecidableEq

/-- Translation of `_validate_frontmatter` composed with the
`FrontmatterData` constructor: unknown keys are dropped, `date` receives
its special handling, everything else is stored verbatim. -/
def validateFrontmatter (today : Str) (data : List (Str × Str)) : FrontmatterData where
  title := lookupLast (str "title") data
  subtitle := lookupLast (str "subtitle") data
  author := lookupLast (str "author") data
  version := lookupLast (str "version") data
  date := (lookupLast (str "date") data).map (validateDateField today)
  customer := lookupLast (str "customer") data
  project := lookupLast (str "project") data

/-- Index of the first line at position `≥ 1` whose stripped form is
`---` (the scan `for i in range(1, len(lines))`). -/
def findCloseIdx (lines : List Str) : Option Nat :=
  ((lines.drop 1).findIdx? (fun l => pyStrip l = str "---")).map (· + 1)

/-- Translation of `parse_frontmatter` on the decoded file content
(`today` stands for `datetime.now().strftime("%Y-%m-%d")`). -/
def parseFrontmatterContent (today : Str) (content : Str) : Option FrontmatterData × Str :=
  if ¬ (str "---").isPrefixOf content then (none, content)
  else
    let lines := splitOnChar '\n' content
    if lines.length < 2 then (none, content)
    else
      match findCloseIdx lines with
      | none => (none, content)
      | some i =>
        let yamlText := joinChar '\n' ((lines.drop 1).take (i - 1))
        let remaining := joinChar '\n' (lines.drop (i + 1))
        (some (validateFrontmatter today (yamlPairs yamlText)), remaining)

/-- Claim C6's spec-side predicate, written from the spec's words: the
text begins with the opening delimiter when its first line, after an
optional byte-order mark, consists solely of three hyphens. -/
def specHasOpeningDelim (content : Str) : Prop :=
  (splitOnChar '\n'
      (if content.head? = some '﻿' then content.drop 1 else content)).head?
    = some (str "---")

instance (content : Str) : Decidable (specHasOpeningDelim content) := by
  unfold specHasOpeningDelim
  infer_instance

/-! ### converter/frontmatter.py — file decoding (parse_frontmatter,
lines 95-107)

`file_path.read_text(encoding="utf-8")` is modelled by a strict UTF-8
decoder over the file's bytes; the `latin-1` fallback maps every byte to
the code point of the same value and never fails.  OS-level read errors
are outside the byte-level model. -/

/-- A byte of the file. -/
abbrev Byte := Fin 256

/-- Continuation byte `0x80-0xBF`. -/
def isContByte (b : Byte) : Bool := 128 ≤ b.val && b.val ≤ 191

/-- Strict UTF-8 decoding to code points, rejecting truncated sequences,
stray continuation bytes, overlong forms, surrogates and values beyond
U+10FFFF, as Python's `utf-8` codec does. -/
def decodeUtf8 : List Byte → Option (List Nat)
  | [] => some []
  | b :: rest =>
    if b.val < 128 then (decodeUtf8 rest).map (b.val :: ·)
    else if 194 ≤ b.val ∧ b.val ≤ 223 then
      match rest with
      | b2 :: rest2 =>
        if isContByte b2 then
          (decodeUtf8 rest2).map (((b.val - 192) * 64 + (b2.val - 128)) :: ·)
        else none
      | [] => none
    else if 224 ≤ b.val ∧ b.val ≤ 239 then
      match rest with
      | b2 :: b3 :: rest3 =>
        if (if b.val = 224 then 160 ≤ b2.val && b2.val ≤ 191
            else if b.val = 237 then 128 ≤ b2.val && b2.val ≤ 159
            else isContByte b2) && isContByte b3 then
          (decodeUtf8 rest3).map
            (((b.val - 224) * 4096 + (b2.val - 128) * 64 + (b3.val - 128)) :: ·)
        else none
      | _ => none
    else if 240 ≤ b.val ∧ b.val ≤ 244 then
      match rest with
      | b2 :: b3 :: b4 :: rest4 =>
        if (if b.val = 240 then 144 ≤ b2.val && b2.val ≤ 191
            else if b.val = 244 then 128 ≤ b2.val && b2.val ≤ 143
            else isContByte b2) && isContByte b3 && isContByte b4 then
          (decodeUtf8 rest4).map
            (((b.val - 240) * 262144 + (b2.val - 128) * 4096
              + (b3.val - 128) * 64 + (b4.val - 128)) :: ·)
        else none
      | _ => none
    else none

/-- The `latin-1` decoding: every byte maps to the code point of the same
value; it succeeds on every byte string. -/
def decodeLatin1 (bs : List Byte) : Option (List Nat) := some (bs.map Fin.val)

/-- The read-and-decode prelude of `parse_frontmatter`: UTF-8 first, then
the `latin-1` fallback; `FrontmatterError` (modelled as the error case) is
raised only when both decodings fail. -/
def readTextModel (bs : List Byte) : Except Unit (List Nat) :=
  match decodeUtf8 bs with
  | some cps => Except.ok cps
  | none =>
    match decodeLatin1 bs with
    | some cps => Except.ok cps
    | none => Except.error ()

/-! ### converter/mermaid_processor.py

Block discovery (`MERMAID_PATTERN`) happens upstream of the claims about
this file; the per-block pipeline receives the pair (full matched block
text, trimmed inner source).  The SHA-256 content hash is modelled as an
uninterpreted function parameter `h` — the only property the code relies
on is that it is a function of the trimmed source.  A successful external
render creates its output file; rendering state is the list of artifact
paths on disk. -/

/-- Cache directory `base_dir / "_assets" / "diagrams"`. -/
def mermaidOutputDir (base : List Str) : List Str :=
  base ++ [str "_assets", str "diagrams"]

/-- Vector artifact path `output_dir / f"{hash}.svg"`. -/
def mermaidSvgPath (h : Str → Str) (base : List Str) (code : Str) : FsPath :=
  ⟨mermaidOutputDir base, h code ++ str ".svg"⟩

/-- Raster artifact path `output_dir / f"{hash}.png"`. -/
def mermaidPngPath (h : Str → Str) (base : List Str) (code : Str) : FsPath :=
  ⟨mermaidOutputDir base, h code ++ str ".png"⟩

/-- State-level translation of `render_mermaid_to_svg_and_png` (lines
158-182): one external CLI invocation per missing artifact, each creating
its output; artifacts already on disk are skipped.  Returns the new disk
and the number of external invocations. -/
def renderMermaidToSvgAndPng (disk : List FsPath) (svgPath pngPath : FsPath) :
    List FsPath × Nat :=
  let r1 := if svgPath ∈ disk then (disk, 0) else (svgPath :: disk, 1)
  let r2 := if pngPath ∈ r1.1 then (r1.1, 0) else (pngPath :: r1.1, 1)
  (r2.1, r1.2 + r2.2)

/-- Rendering of one diagram source into its content-addressed cache
paths. -/
def renderDiagramFor (h : Str → Str) (base : List Str) (code : Str)
    (disk : List FsPath) : List FsPath × Nat :=
  renderMermaidToSvgAndPng disk (mermaidSvgPath h base code) (mermaidPngPath h base code)

/-- Leftmost match position of a pattern, the search of Python
`str.replace(old, new, 1)`. -/
def firstMatchAux (pat : Str) : Str → Nat → Option Nat
  | [], i => if pat.isPrefixOf [] then some i else none
  | c :: cs, i =>
    if pat.isPrefixOf (c :: cs) then some i else firstMatchAux pat cs (i + 1)

/-- Index of the first occurrence of `pat` in `s`, if any. -/
def firstMatch (s pat : Str) : Option Nat := firstMatchAux pat s 0

/-- Python `s.replace(pat, rep, 1)`: the first occurrence of `pat`, if
any, is replaced by `rep`. -/
def replaceFirst (s pat rep : Str) : Str :=
  match firstMatch s pat with
  | none => s
  | some i => s.take i ++ rep ++ s.drop (i + pat.length)

/-- The `output_format.lower().strip()` normalization at the head of
`process_mermaid_in_markdown`. -/
def normalizeOutputFormat (fmt : Str) : Str := pyStrip (fmt.map Char.toLower)

/-- Image reference built for one block (lines 248-251): the SVG artifact
for `pdf`, the PNG artifact otherwise, with the path made relative to
`base_dir` (the artifact always lives under `base_dir/_assets/diagrams`,
so `relative_to` drops the `base_dir` components) and joined in POSIX
form. -/
def mermaidImageRef (h : Str → Str) (base : List Str) (fmtn : Str) (code : Str) : Str :=
  let image := if fmtn = str "pdf" then mermaidSvgPath h base code
    else mermaidPngPath h base code
  let rel := image.dir.drop base.length ++ [image.name]
  str "![](" ++ joinChar '/' rel ++ str ")"

/-- The content rewrite for one block (line 251): exactly the first
remaining occurrence of the block's full matched text is replaced by its
image reference. -/
def processMermaidBlock (h : Str → Str) (base : List Str) (fmtn : Str)
    (content full code : Str) : Str :=
  replaceFirst content full (mermaidImageRef h base fmtn code)

/-- The block loop of `process_mermaid_in_markdown`, restricted to its
content rewriting (rendering is modelled by `renderDiagramFor`). -/
def processMermaidBlocksContent (h : Str → Str) (base : List Str) (fmtn : Str)
    (blocks : List (Str × Str)) (content : Str) : Str :=
  blocks.foldl (fun c b => processMermaidBlock h base fmtn c b.1 b.2) content

/-! ### Concrete batch scenarios used by witnesses and counterexamples -/

/-- First document of Scenario A: frontmatter title `Same Title`. -/
def docA : BatchDoc := ⟨str "file1.md", str "file1", [], Except.ok (some (str "Same Title"))⟩

/-- Second document of Scenario A: the same frontmatter title. -/
def docB : BatchDoc := ⟨str "file2.md", str "file2", [], Except.ok (some (str "Same Title"))⟩

/-- A document whose `parse_frontmatter` call raises. -/
def badDoc : BatchDoc := ⟨str "broken.md", str "broken", [], Except.error (str "Cannot read file: boom")⟩

/-- Conversion oracle for which every conversion succeeds. -/
def convAll : ConvOracle := fun _ _ _ => Except.ok ()

/-- Conversion oracle for which every conversion fails. -/
def convFail : ConvOracle := fun _ _ _ => Except.error (str "pandoc failed")

/-- Final state of the Scenario A batch run (two same-titled documents,
`docx`, `overwrite=true`, empty disk). -/
def scenarioSt : BatchState :=
  (runBatch [str "out"] true [str "docx"] convAll [docA, docB] []).toOption.getD (initState [])

/-- Final state of a batch run in which both conversions fail. -/
def c1St : BatchState :=
  (runBatch [str "out"] false [str "docx"] convFail [docA, docB] []).toOption.getD (initState [])

/-! ### Theorems -/

theorem digitChar_toNat {m : Nat} (h : m < 10) : (digitChar m).toNat - 48 = m := by
  interval_cases m <;> decide

theorem toDecimalAux_fuel :
    ∀ n f₁ f₂, n < f₁ → n < f₂ → toDecimalAux f₁ n = toDecimalAux f₂ n := by
  intro n
  induction n using Nat.strong_induction_on with
  | _ n ih =>
    intro f₁ f₂ h₁ h₂
    match f₁, f₂ with
    | f₁ + 1, f₂ + 1 =>
      simp only [toDecimalAux]
      by_cases hn : n < 10
      · simp [hn]
      · have hd : n / 10 < n := Nat.div_lt_self (by omega) (by omega)
        simp only [hn, if_false]
        rw [ih (n / 10) hd f₁ f₂ (by omega) (by omega)]

theorem toDecimal_eq_aux {n f : Nat} (h : n < f) : toDecimal n = toDecimalAux f n :=
  toDecimalAux_fuel n (n + 1) f (Nat.lt_succ_self n) h

theorem toDecimal_small {n : Nat} (h : n < 10) : toDecimal n = [digitChar n] := by
  simp [toDecimal, toDecimalAux, h]

theorem toDecimal_step {n : Nat} (h : 10 ≤ n) :
    toDecimal n = toDecimal (n / 10) ++ [digitChar (n % 10)] := by
  have hd : n / 10 < n := Nat.div_lt_self (by omega) (by omega)
  rw [toDecimal]
  simp only [toDecimalAux, Nat.not_lt.mpr h, if_false]
  rw [← toDecimal_eq_aux (by omega)]

theorem valDecimal_toDecimal (n : Nat) : valDecimal (toDecimal n) = n := by
  induction n using Nat.strong_induction_on with
  | _ n ih =>
    by_cases h : n < 10
    · rw [toDecimal_small h]
      simp [valDecimal, digitChar_toNat h]
    · rw [toDecimal_step (by omega)]
      have hd : n / 10 < n := Nat.div_lt_self (by omega) (by omega)
      simp only [valDecimal, List.foldl_append, List.foldl_cons, List.foldl_nil]
      rw [show (List.foldl (fun a c => 10 * a + (c.toNat - 48)) 0 (toDecimal (n / 10)))
            = valDecimal (toDecimal (n / 10)) from rfl]
      rw [ih (n / 10) hd, digitChar_toNat (Nat.mod_lt n (by omega))]
      omega

theorem toDecimal_injective : Function.Injective toDecimal := by
  intro a b h
  have := valDecimal_toDecimal a
  rw [h, valDecimal_toDecimal] at this
  omega

theorem digitChar_isDigit {m : Nat} (h : m < 10) : (digitChar m).isDigit = true := by
  interval_cases m <;> decide

theorem toDecimal_all_digits (n : Nat) : (toDecimal n).all Char.isDigit = true := by
  induction n using Nat.strong_induction_on with
  | _ n ih =>
    by_cases h : n < 10
    · rw [toDecimal_small h]
      simp [digitChar_isDigit h]
    · rw [toDecimal_step (by omega)]
      have hd : n / 10 < n := Nat.div_lt_self (by omega) (by omega)
      simp [List.all_append, ih (n / 10) hd, digitChar_isDigit (Nat.mod_lt n (by omega))]

theorem toDecimal_length_le : ∀ k n, 0 < k → n < 10 ^ k → (toDecimal n).length ≤ k := by
  intro k n
  induction n using Nat.strong_induction_on generalizing k with
  | _ n ih =>
    intro hk hn
    by_cases h : n < 10
    · rw [toDecimal_small h]; simpa using hk
    · have hd : n / 10 < n := Nat.div_lt_self (by omega) (by omega)
      have hk2 : 2 ≤ k := by
        by_contra hlt
        have : k = 1 := by omega
        subst this
        simp at hn; omega
      rw [toDecimal_step (by omega)]
      have : n / 10 < 10 ^ (k - 1) := by
        have h10 : (10 : Nat) ^ k = 10 ^ (k - 1) * 10 := by
          conv_lhs => rw [show k = (k - 1) + 1 by omega]
          ring
        rw [Nat.div_lt_iff_lt_mul (by omega)]
        omega
      have := ih (n / 10) hd (k - 1) (by omega) this
      simp only [List.length_append, List.length_cons, List.length_nil]
      omega

theorem collisionCandidate_injective (dir : List Str) (stemB suffix : Str) :
    Function.Injective (collisionCandidate dir stemB suffix) := by
  intro a b h
  simp only [collisionCandidate, FsPath.mk.injEq, true_and] at h
  have h2 := List.append_cancel_left (List.append_cancel_right h)
  exact toDecimal_injective (List.cons_injective h2)

theorem exists_candidate_ok (used disk : List FsPath) (overwrite : Bool)
    (dir : List Str) (stemB suffix : Str) :
    ∃ k, k ≤ used.length + disk.length ∧
      candidateOk used disk overwrite (collisionCandidate dir stemB suffix (2 + k)) = true := by
  by_contra hcon
  push_neg at hcon
  have hmem : ∀ k ≤ used.length + disk.length,
      collisionCandidate dir stemB suffix (2 + k) ∈ used ++ disk := by
    intro k hk
    have hne := hcon k hk
    by_contra hnm
    have hsplit : collisionCandidate dir stemB suffix (2 + k) ∉ used ∧
        collisionCandidate dir stemB suffix (2 + k) ∉ disk := by
      constructor <;> (intro h; exact hnm (List.mem_append.mpr (by tauto)))
    exact hne (by simp [candidateOk, hsplit.1, hsplit.2])
  set N := used.length + disk.length with hN
  set f : Nat → FsPath := fun k => collisionCandidate dir stemB suffix (2 + k) with hf
  have hinj : Function.Injective f := fun a b h => by
    have := collisionCandidate_injective dir stemB suffix h
    omega
  have hsub : (Finset.range (N + 1)).image f ⊆ (used ++ disk).toFinset := by
    intro p hp
    rcases Finset.mem_image.mp hp with ⟨k, hk, rfl⟩
    exact List.mem_toFinset.mpr (hmem k (by simpa using Nat.lt_succ_iff.mp (Finset.mem_range.mp hk)))
  have hcard : N + 1 ≤ (used ++ disk).toFinset.card := by
    calc N + 1 = ((Finset.range (N + 1)).image f).card := by
          rw [Finset.card_image_of_injective _ hinj, Finset.card_range]
      _ ≤ _ := Finset.card_le_card hsub
  have hle : (used ++ disk).toFinset.card ≤ N := by
    calc (used ++ disk).toFinset.card ≤ (used ++ disk).length := (used ++ disk).toFinset_card_le
      _ = N := by simp [hN]
  omega

theorem probeAux_finds (ok : FsPath → Bool) (cand : Nat → FsPath) :
    ∀ fuel c, (∃ k, k < fuel ∧ ok (cand (c + k)) = true) →
      ∃ k, k < fuel ∧ ok (cand (c + k)) = true ∧
        probeAux ok cand fuel c = cand (c + k) ∧
        ∀ j, j < k → ok (cand (c + j)) = false := by
  intro fuel
  induction fuel with
  | zero => intro c ⟨k, hk, _⟩; omega
  | succ fuel ih =>
    intro c ⟨k, hk, hok⟩
    by_cases h0 : ok (cand c) = true
    · exact ⟨0, by omega, by simpa using h0, by simp [probeAux, h0], by omega⟩
    · have h0f : ok (cand c) = false := Bool.eq_false_iff.mpr h0
      have hk0 : k ≠ 0 := by
        intro h; subst h; simp at hok; exact h0 hok
      obtain ⟨k', hk', hok', heq, hmin⟩ := ih (c + 1)
        ⟨k - 1, by omega, by rw [show c + 1 + (k - 1) = c + k by omega]; exact hok⟩
      refine ⟨k' + 1, by omega, ?_, ?_, ?_⟩
      · rw [show c + (k' + 1) = c + 1 + k' by omega]; exact hok'
      · rw [show c + (k' + 1) = c + 1 + k' by omega]
        simp [probeAux, h0f, heq]
      · intro j hj
        cases j with
        | zero => simpa using h0f
        | succ j =>
          rw [show c + (j + 1) = c + 1 + j by omega]
          exact hmin j (by omega)

/-- The resolver's output always satisfies the acceptance test, and is the
candidate with the least counter that does. -/
theorem resolveCollision_spec (used disk : List FsPath) (overwrite : Bool) (base : FsPath) :
    ∃ c, 2 ≤ c ∧
      resolveCollision used disk overwrite base
        = collisionCandidate base.dir (stripCounterStem (splitNameExt base.name).1)
            (splitNameExt base.name).2 c ∧
      candidateOk used disk overwrite (resolveCollision used disk overwrite base) = true ∧
      ∀ j, 2 ≤ j → j < c →
        candidateOk used disk overwrite
          (collisionCandidate base.dir (stripCounterStem (splitNameExt base.name).1)
            (splitNameExt base.name).2 j) = false := by
  obtain ⟨k, hk, hok⟩ := exists_candidate_ok used disk overwrite base.dir
    (stripCounterStem (splitNameExt base.name).1) (splitNameExt base.name).2
  obtain ⟨k', hk', hok', heq, hmin⟩ := probeAux_finds
    (candidateOk used disk overwrite)
    (collisionCandidate base.dir (stripCounterStem (splitNameExt base.name).1)
      (splitNameExt base.name).2)
    (used.length + disk.length + 1) 2 ⟨k, by omega, hok⟩
  refine ⟨2 + k', by omega, ?_, ?_, ?_⟩
  · simpa [resolveCollision] using heq
  · have : resolveCollision used disk overwrite base
        = collisionCandidate base.dir (stripCounterStem (splitNameExt base.name).1)
            (splitNameExt base.name).2 (2 + k') := by
      simpa [resolveCollision] using heq
    rw [this]; exact hok'
  · intro j h2 hj
    have := hmin (j - 2) (by omega)
    rwa [show 2 + (j - 2) = j by omega] at this

/-- The resolved path is never an already-claimed path, and with
`overwrite=false` never an existing path. -/
theorem resolveCollision_ok (used disk : List FsPath) (overwrite : Bool) (base : FsPath) :
    resolveCollision used disk overwrite base ∉ used ∧
      (overwrite = false → resolveCollision used disk overwrite base ∉ disk) := by
  obtain ⟨c, _, _, hok, _⟩ := resolveCollision_spec used disk overwrite base
  simp only [candidateOk, Bool.and_eq_true, Bool.not_eq_true', Bool.or_eq_true,
    decide_eq_false_iff_not] at hok
  refine ⟨hok.1, fun how => ?_⟩
  rcases hok.2 with h | h
  · rw [how] at h; exact absurd h (by simp)
  · exact h

theorem splitAux_ne_nil (sep : Char) (acc s : Str) : splitAux sep acc s ≠ [] := by
  induction s generalizing acc with
  | nil => simp [splitAux]
  | cons c cs ih =>
    simp only [splitAux]
    split
    · simp
    · exact ih (c :: acc)

theorem splitAux_no_sep (sep : Char) :
    ∀ s acc, sep ∉ s → splitAux sep acc s = [acc.reverse ++ s] := by
  intro s
  induction s with
  | nil => intro acc _; simp [splitAux]
  | cons c cs ih =>
    intro acc hmem
    have hc : ¬c = sep := fun h => hmem (h ▸ List.mem_cons_self c cs)
    have hcs : sep ∉ cs := fun h => hmem (List.mem_cons_of_mem c h)
    simp only [splitAux, if_neg (fun h => hc h)]
    rw [ih (c :: acc) hcs]
    simp

theorem splitAux_append (sep : Char) (ds : Str) (hds : sep ∉ ds) :
    ∀ a acc, splitAux sep acc (a ++ sep :: ds) = splitAux sep acc a ++ [ds] := by
  intro a
  induction a with
  | nil =>
    intro acc
    simp only [List.nil_append, splitAux, if_pos rfl]
    rw [splitAux_no_sep sep ds [] hds]
    simp
  | cons c cs ih =>
    intro acc
    by_cases hc : c = sep
    · subst hc
      simp only [List.cons_append, splitAux, if_pos rfl, if_true, eq_self_iff_true,
        List.cons_append]
      exact congrArg (List.reverse acc :: ·) (ih [])
    · simp only [List.cons_append, splitAux, if_neg (fun h => hc h)]
      exact ih (c :: acc)

theorem joinChar_cons (sep : Char) (x : Str) (xs : List Str) (h : xs ≠ []) :
    joinChar sep (x :: xs) = x ++ sep :: joinChar sep xs := by
  cases xs with
  | nil => exact absurd rfl h
  | cons y ys => rfl

theorem joinChar_splitAux (sep : Char) :
    ∀ s acc, joinChar sep (splitAux sep acc s) = acc.reverse ++ s := by
  intro s
  induction s with
  | nil => intro acc; simp [splitAux, joinChar]
  | cons c cs ih =>
    intro acc
    by_cases hc : c = sep
    · subst hc
      simp only [splitAux, if_pos rfl, if_true, eq_self_iff_true]
      rw [joinChar_cons _ _ _ (splitAux_ne_nil _ _ _), ih []]
      simp
    · simp only [splitAux, if_neg (fun h => hc h)]
      rw [ih (c :: acc)]
      simp

theorem joinChar_splitOnChar (sep : Char) (s : Str) :
    joinChar sep (splitOnChar sep s) = s := by
  simpa using joinChar_splitAux sep s []

/-- Characterization of the counter-suffix strip: a stem of the shape
`a ++ "_" ++ digits` is stripped back to `a`. -/
theorem stripCounterStem_append (a ds : Str) (hne : ds ≠ [])
    (hdig : ds.all Char.isDigit = true) :
    stripCounterStem (a ++ '_' :: ds) = a := by
  have hds : '_' ∉ ds := by
    intro hmem
    have := List.all_eq_true.mp hdig _ hmem
    simp at this
  have hsplit : splitOnChar '_' (a ++ '_' :: ds) = splitOnChar '_' a ++ [ds] :=
    splitAux_append '_' ds hds a []
  have hmem : '_' ∈ a ++ '_' :: ds := List.mem_append.mpr (Or.inr (List.mem_cons_self _ _))
  have hdigit : pyIsDigit ds = true := by
    simp [pyIsDigit, hdig, List.isEmpty_iff, hne]
  simp only [stripCounterStem, hsplit, List.getLastD_concat, hdigit, hmem, and_self, if_pos,
    List.dropLast_concat, true_and]
  exact joinChar_splitOnChar '_' a

/-- Stems without an underscore are left unchanged by the strip. -/
theorem stripCounterStem_no_underscore (stem : Str) (h : '_' ∉ stem) :
    stripCounterStem stem = stem := by
  simp [stripCounterStem, h]

/-- Case analysis of one per-format iteration: the item is either skipped,
or a conversion is attempted at a path that is not claimed in-batch and —
without `overwrite` — does not exist on disk. -/
theorem processItem_cases (overwrite : Bool) (conv : ConvOracle) (doc : BatchDoc)
    (title : Option Str) (outSubdir : List Str) (fmt : Str) (st : BatchState) :
    ((baseCandidate doc title outSubdir fmt ∈ st.disk ∧ overwrite = false ∧
        baseCandidate doc title outSubdir fmt ∉ st.used) ∧
      processItem overwrite conv doc title outSubdir fmt st
        = { st with skipped := st.skipped + 1 })
    ∨ ∃ out, out ∉ st.used ∧ (overwrite = false → out ∉ st.disk)
        ∧ (baseCandidate doc title outSubdir fmt ∉ st.used →
            out = baseCandidate doc title outSubdir fmt)
        ∧ ((∃ u, conv doc.src fmt out = Except.ok u ∧
              processItem overwrite conv doc title outSubdir fmt st
                = { st with
                    used := out :: st.used
                    disk := out :: st.disk
                    successful := st.successful + 1
                    log := st.log ++ [(doc.src, fmt, out, true)] })
          ∨ (∃ msg, conv doc.src fmt out = Except.error msg ∧
              processItem overwrite conv doc title outSubdir fmt st
                = { st with
                    failed := st.failed + 1
                    errors := st.errors ++ [(doc.src, fmt ++ ':' :: ' ' :: msg)]
                    log := st.log ++ [(doc.src, fmt, out, false)] })) := by
  set base : FsPath := baseCandidate doc title outSubdir fmt with hbase
  by_cases h1 : base ∈ st.disk ∧ overwrite = false ∧ base ∉ st.used
  · left
    refine ⟨h1, ?_⟩
    simp only [processItem, ← hbase]
    rw [if_pos h1]
  · right
    by_cases hu : base ∈ st.used
    · refine ⟨resolveCollision st.used st.disk overwrite base,
        (resolveCollision_ok st.used st.disk overwrite base).1,
        (resolveCollision_ok st.used st.disk overwrite base).2,
        fun h => absurd hu h, ?_⟩
      have h2 : ¬(resolveCollision st.used st.disk overwrite base ∈ st.disk ∧
          overwrite = false ∧ resolveCollision st.used st.disk overwrite base ∉ st.used) := by
        rintro ⟨hd, how, -⟩
        exact (resolveCollision_ok st.used st.disk overwrite base).2 how hd
      cases hc : conv doc.src fmt (resolveCollision st.used st.disk overwrite base) with
      | ok u =>
        left
        refine ⟨u, rfl, ?_⟩
        simp only [processItem, ← hbase]
        rw [if_neg h1, if_pos hu, if_neg h2, hc]
      | error msg =>
        right
        refine ⟨msg, rfl, ?_⟩
        simp only [processItem, ← hbase]
        rw [if_neg h1, if_pos hu, if_neg h2, hc]
    · have hnd : overwrite = false → base ∉ st.disk := by
        intro how hd
        exact h1 ⟨hd, how, hu⟩
      refine ⟨base, hu, hnd, fun _ => rfl, ?_⟩
      have h2 : ¬(base ∈ st.disk ∧ overwrite = false ∧ base ∉ st.used) := h1
      cases hc : conv doc.src fmt base with
      | ok u =>
        left
        refine ⟨u, rfl, ?_⟩
        simp only [processItem, ← hbase]
        rw [if_neg h1, if_neg hu, if_neg h2, hc]
      | error msg =>
        right
        refine ⟨msg, rfl, ?_⟩
        simp only [processItem, ← hbase]
        rw [if_neg h1, if_neg hu, if_neg h2, hc]

theorem successPaths_append (log : List (Str × Str × FsPath × Bool))
    (e : Str × Str × FsPath × Bool) :
    successPaths (log ++ [e])
      = successPaths log ++ (if e.2.2.2 = true then [e.2.2.1] else []) := by
  by_cases hb : e.2.2.2 = true <;>
    simp [successPaths, List.filterMap_append, hb]

theorem processItem_inv {overwrite : Bool} {initDisk : List FsPath}
    (conv : ConvOracle) (doc : BatchDoc) (title : Option Str)
    (outSubdir : List Str) (fmt : Str) (st : BatchState)
    (h : BatchInv overwrite initDisk st) :
    BatchInv overwrite initDisk (processItem overwrite conv doc title outSubdir fmt st) ∧
      sumC (processItem overwrite conv doc title outSubdir fmt st) = sumC st + 1 := by
  obtain ⟨hfe, hdisk, hlog, hsub, hnd⟩ := h
  rcases processItem_cases overwrite conv doc title outSubdir fmt st with ⟨-, heq⟩ |
    ⟨out, hused, hnew, -, ⟨u, -, heq⟩ | ⟨msg, -, heq⟩⟩
  · rw [heq]
    exact ⟨⟨hfe, hdisk, hlog, hsub, hnd⟩, by simp only [sumC]; omega⟩
  · rw [heq]
    refine ⟨⟨hfe, fun p hp => List.mem_cons_of_mem _ (hdisk p hp), ?_, ?_, ?_⟩,
      by simp only [sumC]; omega⟩
    · intro how e he
      rcases List.mem_append.mp he with he | he
      · exact hlog how e he
      · have : e = (doc.src, fmt, out, true) := List.mem_singleton.mp he
        subst this
        intro hmem
        exact hnew how (hdisk _ hmem)
    · intro p hp
      rw [successPaths_append] at hp
      rcases List.mem_append.mp hp with hp | hp
      · exact List.mem_cons_of_mem _ (hsub p hp)
      · simp only [if_pos rfl] at hp
        rw [List.mem_singleton.mp hp]
        exact List.mem_cons_self _ _
    · rw [successPaths_append]
      simp only [if_pos rfl]
      rw [List.nodup_append]
      refine ⟨hnd, List.nodup_singleton _, fun p hp hq => ?_⟩
      have hpe : p = out := List.mem_singleton.mp hq
      exact hused (hpe ▸ hsub p hp)
  · rw [heq]
    refine ⟨⟨by simp [hfe], hdisk, ?_, ?_, ?_⟩, by simp only [sumC]; omega⟩
    · intro how e he
      rcases List.mem_append.mp he with he | he
      · exact hlog how e he
      · have : e = (doc.src, fmt, out, false) := List.mem_singleton.mp he
        subst this
        intro hmem
        exact hnew how (hdisk _ hmem)
    · intro p hp
      rw [successPaths_append] at hp
      simp only [if_neg (by simp : ¬((false : Bool) = true))] at hp
      exact hsub p (by simpa using hp)
    · rw [successPaths_append]
      simp only [if_neg (by simp : ¬((false : Bool) = true))]
      simpa using hnd

theorem foldl_processItem_inv {overwrite : Bool} {initDisk : List FsPath}
    (conv : ConvOracle) (doc : BatchDoc) (title : Option Str)
    (outSubdir : List Str) :
    ∀ (fmts : List Str) (st : BatchState), BatchInv overwrite initDisk st →
      BatchInv overwrite initDisk
          (fmts.foldl (fun st2 fmt => processItem overwrite conv doc title outSubdir fmt st2) st) ∧
        sumC (fmts.foldl (fun st2 fmt => processItem overwrite conv doc title outSubdir fmt st2) st)
          = sumC st + fmts.length := by
  intro fmts
  induction fmts with
  | nil => intro st h; exact ⟨h, rfl⟩
  | cons f fs ih =>
    intro st h
    obtain ⟨h1, h2⟩ := processItem_inv conv doc title outSubdir f st h
    obtain ⟨h3, h4⟩ := ih _ h1
    refine ⟨by simpa using h3, ?_⟩
    simp only [List.foldl_cons, List.length_cons]
    omega

theorem runBatchDocs_inv {outputDir : List Str} {overwrite : Bool} {conv : ConvOracle}
    {fmts : List Str} :
    ∀ (docs : List BatchDoc) (st : BatchState) (initDisk : List FsPath),
      BatchInv overwrite initDisk st →
      (∀ d ∈ docs, ∃ t, d.parse = Except.ok t) →
      ∃ st', runBatchDocs outputDir overwrite conv fmts docs st = Except.ok st' ∧
        BatchInv overwrite initDisk st' ∧
        sumC st' = sumC st + docs.length * fmts.length := by
  intro docs
  induction docs with
  | nil =>
    intro st initDisk h _
    exact ⟨st, rfl, h, by simp⟩
  | cons d ds ih =>
    intro st initDisk h hparse
    obtain ⟨t, ht⟩ := hparse d (List.mem_cons_self _ _)
    obtain ⟨h1, h2⟩ := foldl_processItem_inv conv d t (outputDir ++ d.relParent) fmts st h
    obtain ⟨st', hrun, h3, h4⟩ := ih _ initDisk h1
      (fun d2 hd2 => hparse d2 (List.mem_cons_of_mem _ hd2))
    refine ⟨st', ?_, h3, ?_⟩
    · simp only [runBatchDocs, processDoc, ht]
      exact hrun
    · rw [h4, h2]
      simp only [List.length_cons]
      ring

theorem runBatchDocs_inv_of_ok {outputDir : List Str} {overwrite : Bool} {conv : ConvOracle}
    {fmts : List Str} :
    ∀ (docs : List BatchDoc) (st0 st : BatchState) (initDisk : List FsPath),
      BatchInv overwrite initDisk st0 →
      runBatchDocs outputDir overwrite conv fmts docs st0 = Except.ok st →
      BatchInv overwrite initDisk st := by
  intro docs
  induction docs with
  | nil =>
    intro st0 st initDisk h hrun
    cases hrun
    exact h
  | cons d ds ih =>
    intro st0 st initDisk h hrun
    simp only [runBatchDocs] at hrun
    cases hd : processDoc outputDir overwrite conv fmts d st0 with
    | error e => rw [hd] at hrun; cases hrun
    | ok st1 =>
      rw [hd] at hrun
      have hinv1 : BatchInv overwrite initDisk st1 := by
        simp only [processDoc] at hd
        cases hp : d.parse with
        | error e => rw [hp] at hd; cases hd
        | ok title =>
          rw [hp] at hd
          cases hd
          exact (foldl_processItem_inv conv d title (outputDir ++ d.relParent) fmts st0 h).1
      exact ih st1 st initDisk hinv1 hrun

theorem batchInv_init (overwrite : Bool) (initDisk : List FsPath) :
    BatchInv overwrite initDisk (initState initDisk) := by
  refine ⟨rfl, fun p hp => hp, fun _ e he => ?_, fun p hp => ?_, ?_⟩
  · simp [initState] at he
  · simp [initState, successPaths] at hp
  · simp [initState, successPaths]

theorem except_isOk_of_eq_ok {ε α : Type} {e : Except ε α} {a : α}
    (h : e = Except.ok a) : e.isOk = true := by
  rw [h]; rfl

theorem exists_ok_of_isOk {ε α : Type} {e : Except ε α}
    (h : e.isOk = true) : ∃ a, e = Except.ok a := by
  cases e with
  | ok a => exact ⟨a, rfl⟩
  | error _ => cases h

/-! ### Claim theorems for the batch orchestrator -/

/-- C1 (counterexample): a document whose frontmatter read raises a
`FrontmatterError` mid-batch aborts the whole run — `convert_batch`
propagates the exception instead of returning a `BatchResult`, because
`parse_frontmatter` is called outside the per-item `try` block.  The third
document is never attempted. -/
theorem claim_c1_counterexample :
    runBatch [str "out"] false [str "docx"] convAll [docA, badDoc, docB] []
      = Except.error (str "Cannot read file: boom") := by decide

/-- C1 (amended): any exception raised inside the per-(document, format)
conversion loop is caught at batch level, recorded, and the loop continues
— when every document's frontmatter parse succeeds, the batch always
returns a result in which every (document, format) pair was counted
exactly once and every failure is recorded in the error list.  The
per-document frontmatter parse itself, however, runs outside this
protection (see the counterexample). -/
theorem claim_c1 (outputDir : List Str) (overwrite : Bool) (formats : List Str)
    (conv : ConvOracle) (docs : List BatchDoc) (initDisk : List FsPath)
    (hparse : ∀ d ∈ docs, (d.parse).isOk = true) :
    (runBatch outputDir overwrite formats conv docs initDisk).isOk = true ∧
    ∀ st, runBatch outputDir overwrite formats conv docs initDisk = Except.ok st →
      sumC st = docs.length * (normalizeFormats formats).length ∧
      st.failed = st.errors.length := by
  obtain ⟨st', hrun, hinv, hsum⟩ := runBatchDocs_inv docs (initState initDisk) initDisk
    (batchInv_init overwrite initDisk) (fun d hd => exists_ok_of_isOk (hparse d hd))
  refine ⟨except_isOk_of_eq_ok hrun, fun st hst => ?_⟩
  have hs : st' = st := by
    have := hrun.symm.trans hst
    exact Except.ok.inj this
  subst hs
  refine ⟨?_, hinv.1⟩
  rw [hsum]
  simp [initState, sumC]

/-- C1 (witness for the amended theorem): a batch of two documents whose
conversions all fail still completes, attempts both items, and records
both failures. -/
theorem claim_c1_witness :
    sumC c1St = [docA, docB].length * (normalizeFormats [str "docx"]).length ∧
      c1St.failed = c1St.errors.length :=
  (claim_c1 [str "out"] false [str "docx"] convFail [docA, docB] []
    (by decide)).2 c1St (by decide)

/-- C2: in any batch run, with `overwrite=false` no logged conversion
attempt ever targets a path that existed on disk before the run, and with
`overwrite=true` the successfully converted (document, format) items
receive pairwise distinct final output paths. -/
theorem claim_c2 (outputDir : List Str) (overwrite : Bool) (formats : List Str)
    (conv : ConvOracle) (docs : List BatchDoc) (initDisk : List FsPath) (st : BatchState)
    (hrun : runBatch outputDir overwrite formats conv docs initDisk = Except.ok st) :
    (overwrite = false → ∀ e ∈ st.log, e.2.2.1 ∉ initDisk) ∧
    (overwrite = true → (successPaths st.log).Nodup) := by
  have hinv := runBatchDocs_inv_of_ok docs (initState initDisk) st initDisk
    (batchInv_init overwrite initDisk) hrun
  exact ⟨hinv.2.2.1, fun _ => hinv.2.2.2.2⟩

/-- C2 (witness): in the Scenario A run the two successful conversions
use distinct paths. -/
theorem claim_c2_witness : (successPaths scenarioSt.log).Nodup :=
  (claim_c2 [str "out"] true [str "docx"] convAll [docA, docB] [] scenarioSt
    (by decide)).2 rfl

/-- C3: two documents with title `Same Title` batch-converted to docx with
`overwrite=true` on an empty disk produce `same-title.docx` and
`same-title_2.docx`; in general the collision resolver probes
`stem_2, stem_3, …` (extension preserved) and returns the lowest-numbered
candidate that is neither claimed in-batch nor existing-without-overwrite,
after stripping an existing numeric `_<digits>` suffix from the stem. -/
theorem claim_c3 :
    (runBatch [str "out"] true [str "docx"] convAll [docA, docB] [] = Except.ok scenarioSt ∧
      scenarioSt.log.map (fun e => e.2.2.1.name)
        = [str "same-title.docx", str "same-title_2.docx"] ∧
      scenarioSt.successful = 2) ∧
    (∀ used disk overwrite base, ∃ c, 2 ≤ c ∧
      resolveCollision used disk overwrite base
        = collisionCandidate base.dir (stripCounterStem (splitNameExt base.name).1)
            (splitNameExt base.name).2 c ∧
      candidateOk used disk overwrite (resolveCollision used disk overwrite base) = true ∧
      ∀ j, 2 ≤ j → j < c →
        candidateOk used disk overwrite
          (collisionCandidate base.dir (stripCounterStem (splitNameExt base.name).1)
            (splitNameExt base.name).2 j) = false) ∧
    (∀ a ds, ds ≠ [] → ds.all Char.isDigit = true →
      stripCounterStem (a ++ '_' :: ds) = a) :=
  ⟨by decide, resolveCollision_spec, stripCounterStem_append⟩

/-- C3 (witness): the suffix strip at a concrete stem with an existing
numeric counter. -/
theorem claim_c3_witness : stripCounterStem (str "report_12") = str "report" :=
  claim_c3.2.2 (str "report") (str "12") (by decide) (by decide)

/-- C9: a final output path is added to the batch's claimed set only by a
successful conversion; a failed attempt leaves the claimed set unchanged;
and a candidate that is unclaimed (and not blocked by an existing file
without overwrite) is attempted at exactly that path, with no collision
suffixing. -/
theorem claim_c9 (overwrite : Bool) (conv : ConvOracle) (doc : BatchDoc)
    (title : Option Str) (outSubdir : List Str) (fmt : Str) (st : BatchState) :
    (∀ p, p ∈ (processItem overwrite conv doc title outSubdir fmt st).used →
        p ∈ st.used ∨
          (processItem overwrite conv doc title outSubdir fmt st).log
            = st.log ++ [(doc.src, fmt, p, true)]) ∧
    (∀ p, (processItem overwrite conv doc title outSubdir fmt st).log
            = st.log ++ [(doc.src, fmt, p, false)] →
        (processItem overwrite conv doc title outSubdir fmt st).used = st.used) ∧
    (baseCandidate doc title outSubdir fmt ∉ st.used →
      (overwrite = true ∨ baseCandidate doc title outSubdir fmt ∉ st.disk) →
      ∃ ok2, (processItem overwrite conv doc title outSubdir fmt st).log
          = st.log ++ [(doc.src, fmt, baseCandidate doc title outSubdir fmt, ok2)]) := by
  refine ⟨?_, ?_, ?_⟩
  · intro p hp
    rcases processItem_cases overwrite conv doc title outSubdir fmt st with ⟨-, heq⟩ |
      ⟨out, hused, -, -, ⟨u, -, heq⟩ | ⟨msg, -, heq⟩⟩
    · rw [heq] at hp; exact Or.inl hp
    · rw [heq] at hp
      rcases List.mem_cons.mp hp with hpe | hp2
      · right; rw [heq, hpe]
      · exact Or.inl hp2
    · rw [heq] at hp; exact Or.inl hp
  · intro p hp
    rcases processItem_cases overwrite conv doc title outSubdir fmt st with ⟨-, heq⟩ |
      ⟨out, hused, -, -, ⟨u, -, heq⟩ | ⟨msg, -, heq⟩⟩
    · rw [heq] at hp
      have hl := congrArg List.length hp
      simp only [List.length_append, List.length_cons, List.length_nil] at hl
      omega
    · rw [heq] at hp
      have h2 := List.append_cancel_left hp
      simp at h2
    · rw [heq]
  · intro hnu hor
    rcases processItem_cases overwrite conv doc title outSubdir fmt st with
      ⟨⟨hd, how, -⟩, -⟩ | ⟨out, -, -, hbase, ⟨u, -, heq⟩ | ⟨msg, -, heq⟩⟩
    · rcases hor with h | h
      · rw [how] at h; exact absurd h (by simp)
      · exact absurd hd h
    · exact ⟨true, by rw [heq, hbase hnu]⟩
    · exact ⟨false, by rw [heq, hbase hnu]⟩

/-- C9 (witness): a failed conversion attempt leaves the claimed-path set
unchanged in a concrete single-item batch state. -/
theorem claim_c9_witness :
    (processItem true convFail docA (some (str "Same Title")) [str "out"] (str "docx")
        (initState [])).used = (initState ([] : List FsPath)).used :=
  (claim_c9 true convFail docA (some (str "Same Title")) [str "out"] (str "docx")
      (initState [])).2.1
    (baseCandidate docA (some (str "Same Title")) [str "out"] (str "docx")) (by decide)

/-- C10: a title that is non-empty but slugifies to the empty string makes
`get_output_filename` return just the extension, independently of the
input file's own stem. -/
theorem claim_c10 (stem title fmt : Str) (h1 : title ≠ []) (h2 : slugify title = []) :
    getOutputFilename stem (some title) none fmt = extensionOf fmt := by
  simp [getOutputFilename, h1, h2]

/-- C10 (witness): a whitespace-only title produces the bare `.docx`
filename rather than the document stem. -/
theorem claim_c10_witness :
    getOutputFilename (str "notes") (some (str "  ")) none (str "docx")
      = extensionOf (str "docx") :=
  claim_c10 (str "notes") (str "  ") (str "docx") (by decide) (by decide)

/-! ### Lemmas about the date model -/

theorem parseMonth_bounds {s r : Str} {m : Nat} (h : parseMonth s = some (m, r)) :
    1 ≤ m ∧ m ≤ 12 := by
  unfold parseMonth at h
  split at h
  all_goals try split at h
  all_goals try cases h
  all_goals try simp only [dval]
  all_goals omega

theorem parseDay_bounds {s r : Str} {d : Nat} (h : parseDay s = some (d, r)) :
    1 ≤ d ∧ d ≤ 31 := by
  unfold parseDay at h
  split at h
  all_goals try split at h
  all_goals try cases h
  all_goals try simp only [dval]
  all_goals omega

theorem parseYear4_bounds {s r : Str} {y : Nat} (h : parseYear4 s = some (y, r)) :
    y ≤ 9999 := by
  unfold parseYear4 at h
  split at h
  case _ a b c d rest =>
    split at h
    · simp only [Option.some.injEq, Prod.mk.injEq] at h
      rename_i hcond
      simp only [isDig, Bool.and_eq_true, decide_eq_true_eq] at hcond
      simp only [dval] at h
      omega
    · cases h
  case _ => cases h

theorem parseFmtYMD_year {sep : Char} {s : Str} {y m d : Nat}
    (h : parseFmtYMD sep s = some (y, m, d)) : y ≤ 9999 := by
  simp only [parseFmtYMD, bind, Option.bind_eq_some] at h
  obtain ⟨⟨y1, s1⟩, hy, h⟩ := h
  obtain ⟨s2, -, h⟩ := h
  obtain ⟨⟨m1, s3⟩, -, h⟩ := h
  obtain ⟨s4, -, h⟩ := h
  obtain ⟨⟨d1, s5⟩, -, h⟩ := h
  split at h
  · simp only [Option.some.injEq, Prod.mk.injEq] at h
    obtain ⟨hy1, -, -⟩ := h
    exact hy1 ▸ parseYear4_bounds hy
  · cases h

theorem parseFmtDMY_year {sep : Char} {s : Str} {y m d : Nat}
    (h : parseFmtDMY sep s = some (y, m, d)) : y ≤ 9999 := by
  simp only [parseFmtDMY, bind, Option.bind_eq_some] at h
  obtain ⟨⟨d1, s1⟩, -, h⟩ := h
  obtain ⟨s2, -, h⟩ := h
  obtain ⟨⟨m1, s3⟩, -, h⟩ := h
  obtain ⟨s4, -, h⟩ := h
  obtain ⟨⟨y1, s5⟩, hy, h⟩ := h
  split at h
  · simp only [Option.some.injEq, Prod.mk.injEq] at h
    obtain ⟨hy1, -, -⟩ := h
    exact hy1 ▸ parseYear4_bounds hy
  · cases h

theorem daysInMonth_le (y m : Nat) : daysInMonth y m ≤ 31 := by
  unfold daysInMonth
  split_ifs <;> omega

theorem checkedParse_bounds {p : Str → Option (Nat × Nat × Nat)} {s : Str} {y m d : Nat}
    (hy : ∀ s y m d, p s = some (y, m, d) → y ≤ 9999)
    (h : checkedParse p s = some (y, m, d)) :
    1 ≤ y ∧ y ≤ 9999 ∧ 1 ≤ m ∧ m ≤ 12 ∧ 1 ≤ d ∧ d ≤ 31 := by
  unfold checkedParse at h
  split at h
  case _ y1 m1 d1 hp =>
    have hyb : y1 ≤ 9999 := hy s y1 m1 d1 hp
    split at h
    · rename_i hv
      simp only [Option.some.injEq, Prod.mk.injEq] at h
      simp only [validDate, Bool.and_eq_true, decide_eq_true_eq] at hv
      have h31 := daysInMonth_le y1 m1
      omega
    · cases h
  case _ => cases h

theorem all_replicate_zero_digit (n : Nat) :
    (List.replicate n '0').all Char.isDigit = true := by
  induction n with
  | zero => rfl
  | succ n ih => simp [List.replicate, ih]

theorem padZero_length {k : Nat} {s : Str} (h : s.length ≤ k) :
    (padZero k s).length = k := by
  simp only [padZero, List.length_append, List.length_replicate]
  omega

theorem padZero_all_digits {k n : Nat} :
    (padZero k (toDecimal n)).all Char.isDigit = true := by
  simp only [padZero, List.all_append]
  simp [all_replicate_zero_digit, toDecimal_all_digits]

theorem count_hyphen_zero {s : Str} (h : s.all Char.isDigit = true) :
    s.count '-' = 0 := by
  rw [List.count_eq_zero]
  intro hmem
  have := List.all_eq_true.mp h _ hmem
  simp at this

theorem toDecimal_length_pos (n : Nat) : 1 ≤ (toDecimal n).length := by
  by_cases h : n < 10
  · rw [toDecimal_small h]; simp
  · rw [toDecimal_step (by omega)]; simp

theorem fmtDate_props {y m d : Nat} (h2 : y ≤ 9999) (h3 : m ≤ 12) (h4 : d ≤ 31) :
    (fmtDate y m d).length = 10 ∧ (fmtDate y m d).count '-' = 2 := by
  have hy : (padZero 4 (toDecimal y)).length = 4 :=
    padZero_length (toDecimal_length_le 4 y (by omega) (by omega))
  have hm : (padZero 2 (toDecimal m)).length = 2 :=
    padZero_length (toDecimal_length_le 2 m (by omega) (by omega))
  have hd : (padZero 2 (toDecimal d)).length = 2 :=
    padZero_length (toDecimal_length_le 2 d (by omega) (by omega))
  constructor
  · simp only [fmtDate, List.length_append, List.length_cons, hy, hm, hd]
  · simp only [fmtDate, List.count_append, List.count_cons]
    rw [count_hyphen_zero padZero_all_digits, count_hyphen_zero padZero_all_digits,
      count_hyphen_zero padZero_all_digits]
    simp

theorem tryFormats_bounds {s : Str} {y m d : Nat} (h : tryFormats s = some (y, m, d)) :
    1 ≤ y ∧ y ≤ 9999 ∧ 1 ≤ m ∧ m ≤ 12 ∧ 1 ≤ d ∧ d ≤ 31 := by
  have hout : ∃ py, (∀ s2 y2 m2 d2, py s2 = some (y2, m2, d2) → y2 ≤ 9999) ∧
      checkedParse py s = some (y, m, d) := by
    unfold tryFormats at h
    split at h
    · rename_i v heq
      exact ⟨parseFmtYMD '-', fun _ _ _ _ hp => parseFmtYMD_year hp, heq.trans h⟩
    · split at h
      · rename_i v heq
        exact ⟨parseFmtDMY '.', fun _ _ _ _ hp => parseFmtDMY_year hp, heq.trans h⟩
      · split at h
        · rename_i v heq
          exact ⟨parseFmtDMY '/', fun _ _ _ _ hp => parseFmtDMY_year hp, heq.trans h⟩
        · split at h
          · rename_i v heq
            exact ⟨parseFmtYMD '/', fun _ _ _ _ hp => parseFmtYMD_year hp, heq.trans h⟩
          · exact ⟨parseFmtDMY '-', fun _ _ _ _ hp => parseFmtDMY_year hp, h⟩
  obtain ⟨py, hpy, hcp⟩ := hout
  exact checkedParse_bounds hpy hcp

theorem normalizeDate_eq_some {s t : Str} (h : normalizeDate s = some t) :
    ∃ y m d, 1 ≤ y ∧ y ≤ 9999 ∧ 1 ≤ m ∧ m ≤ 12 ∧ 1 ≤ d ∧ d ≤ 31 ∧
      t = fmtDate y m d := by
  unfold normalizeDate at h
  split at h
  · cases h
  · rw [Option.map_eq_some'] at h
    obtain ⟨⟨y, m, d⟩, hc, rfl⟩ := h
    obtain ⟨b1, b2, b3, b4, b5, b6⟩ := tryFormats_bounds hc
    exact ⟨y, m, d, b1, b2, b3, b4, b5, b6, rfl⟩

/-! ### Claim theorems for the metadata extractor -/

/-- C5: every date value matched by one of the five recognized formats is
stored as a string of exactly ten characters with exactly two hyphens, in
year-month-day order (four-digit year, two-digit month and day); an
unmatched non-empty value is stored unchanged. -/
theorem claim_c5 (s t today : Str) :
    (normalizeDate s = some t →
      t.length = 10 ∧ t.count '-' = 2 ∧
      ∃ y m d, 1 ≤ y ∧ y ≤ 9999 ∧ 1 ≤ m ∧ m ≤ 12 ∧ 1 ≤ d ∧ d ≤ 31 ∧
        t = padZero 4 (toDecimal y) ++ '-' :: padZero 2 (toDecimal m)
              ++ '-' :: padZero 2 (toDecimal d)) ∧
    (normalizeDate s = none → s ≠ [] → validateDateField today s = s) := by
  constructor
  · intro h
    obtain ⟨y, m, d, b1, b2, b3, b4, b5, b6, rfl⟩ := normalizeDate_eq_some h
    obtain ⟨hlen, hcnt⟩ := fmtDate_props b2 b4 b6
    exact ⟨hlen, hcnt, y, m, d, b1, b2, b3, b4, b5, b6, rfl⟩
  · intro h hne
    unfold validateDateField
    rw [if_neg hne, h]

/-- C5 (witness): a concrete date in day-first dotted format is normalized
to a ten-character hyphenated year-month-day string. -/
theorem claim_c5_witness :
    normalizeDate (str "31.12.2023") = some (str "2023-12-31") ∧
      (str "2023-12-31").length = 10 ∧ (str "2023-12-31").count '-' = 2 :=
  ⟨by decide, ((claim_c5 (str "31.12.2023") (str "2023-12-31") (str "x")).1 (by decide)).1,
    ((claim_c5 (str "31.12.2023") (str "2023-12-31") (str "x")).1 (by decide)).2.1⟩

/-- C6 (counterexample): `"---x\n---\nbody"` does not begin with a line
consisting solely of three hyphens, so by the claim the extractor must
return absent with the original text; the code instead accepts any text
merely starting with the three characters `---` and parses an (empty)
metadata block. -/
theorem claim_c6_counterexample :
    ¬ specHasOpeningDelim (str "---x\n---\nbody") ∧
      parseFrontmatterContent (str "2026-10-12") (str "---x\n---\nbody")
        ≠ (none, str "---x\n---\nbody") := by
  constructor
  · decide
  · decide

/-- C6 (amended): the extractor returns absent together with the original,
byte-identical text exactly when the text does not start with the three
characters `---` (so a text whose delimiter is preceded by a byte-order
mark, or whose first line merely begins with `---`, is judged by this
prefix test, not by a whole-line test), or consists of a single line, or
no line after the first has `---` as its stripped content. -/
theorem claim_c6 (today content : Str) :
    parseFrontmatterContent today content = (none, content) ↔
      (¬ (str "---").isPrefixOf content ∨
        (splitOnChar '\n' content).length < 2 ∨
        findCloseIdx (splitOnChar '\n' content) = none) := by
  constructor
  · intro h
    by_cases hp : (str "---").isPrefixOf content
    · by_cases hl : (splitOnChar '\n' content).length < 2
      · exact Or.inr (Or.inl hl)
      · rcases hc : findCloseIdx (splitOnChar '\n' content) with - | i
        · exact Or.inr (Or.inr rfl)
        · exfalso
          simp only [parseFrontmatterContent, hp, not_true, if_neg, if_false, hl, hc] at h
          exact Option.noConfusion (congrArg Prod.fst h)
    · exact Or.inl hp
  · intro h
    rcases h with h | h | h
    · simp only [parseFrontmatterContent, if_pos h]
    · by_cases hp : (str "---").isPrefixOf content
      · simp only [parseFrontmatterContent, hp, not_true, if_false, if_pos h]
      · simp only [parseFrontmatterContent, if_pos hp]
    · by_cases hp : (str "---").isPrefixOf content
      · by_cases hl : (splitOnChar '\n' content).length < 2
        · simp only [parseFrontmatterContent, hp, not_true, if_false, if_pos hl]
        · simp only [parseFrontmatterContent, hp, not_true, if_false, if_neg hl, h]
      · simp only [parseFrontmatterContent, if_pos hp]

/-- C6 (witness for the amended theorem): a document with an opening but
no closing delimiter is returned absent and byte-identical. -/
theorem claim_c6_witness :
    parseFrontmatterContent (str "2026-10-12") (str "---\ntitle: X")
      = (none, str "---\ntitle: X") :=
  (claim_c6 (str "2026-10-12") (str "---\ntitle: X")).mpr (by decide)

/-- C8: the read prelude of the metadata extractor fails if and only if
the content decodes under neither UTF-8 nor latin-1 — and since latin-1
decodes every byte string, it in fact never fails: every readable file's
content is decoded without a `FrontmatterError`. -/
theorem claim_c8 (bs : List Byte) :
    (readTextModel bs).isOk = true ∧
      (readTextModel bs = Except.error () ↔
        (decodeUtf8 bs = none ∧ decodeLatin1 bs = none)) := by
  unfold readTextModel decodeLatin1
  cases decodeUtf8 bs <;> simp [Except.isOk, Except.toBool]

/-! ### Lemmas about the mermaid model -/

theorem renderMermaid_mem (disk : List FsPath) (svgPath pngPath : FsPath) :
    svgPath ∈ (renderMermaidToSvgAndPng disk svgPath pngPath).1 ∧
      pngPath ∈ (renderMermaidToSvgAndPng disk svgPath pngPath).1 := by
  simp only [renderMermaidToSvgAndPng]
  split_ifs <;> simp_all [List.mem_cons]

theorem renderMermaid_hit (disk : List FsPath) (svgPath pngPath : FsPath)
    (h1 : svgPath ∈ disk) (h2 : pngPath ∈ disk) :
    renderMermaidToSvgAndPng disk svgPath pngPath = (disk, 0) := by
  simp [renderMermaidToSvgAndPng, h1, h2]

theorem renderMermaid_le_two (disk : List FsPath) (svgPath pngPath : FsPath) :
    (renderMermaidToSvgAndPng disk svgPath pngPath).2 ≤ 2 := by
  simp only [renderMermaidToSvgAndPng]
  split_ifs <;> simp

theorem firstMatchAux_spec (pat : Str) :
    ∀ (s : Str) (i j : Nat), firstMatchAux pat s i = some j →
      i ≤ j ∧ pat.isPrefixOf (s.drop (j - i)) = true ∧
        ∀ k, k < j - i → pat.isPrefixOf (s.drop k) = false := by
  intro s
  induction s with
  | nil =>
    intro i j h
    unfold firstMatchAux at h
    split at h
    · rename_i hp
      cases h
      exact ⟨Nat.le_refl _, by simpa using hp, by omega⟩
    · cases h
  | cons c cs ih =>
    intro i j h
    unfold firstMatchAux at h
    split at h
    · rename_i hp
      cases h
      exact ⟨Nat.le_refl _, by simpa using hp, by omega⟩
    · rename_i hp
      obtain ⟨hij, hpre, hmin⟩ := ih (i + 1) j h
      refine ⟨by omega, ?_, ?_⟩
      · rw [show j - i = (j - (i + 1)) + 1 by omega]
        simpa using hpre
      · intro k hk
        cases k with
        | zero => simpa using Bool.eq_false_iff.mpr hp
        | succ k =>
          rw [List.drop_succ_cons]
          exact hmin k (by omega)

theorem firstMatch_spec {s pat : Str} {i : Nat} (h : firstMatch s pat = some i) :
    pat.isPrefixOf (s.drop i) = true ∧ ∀ j, j < i → pat.isPrefixOf (s.drop j) = false := by
  obtain ⟨-, hpre, hmin⟩ := firstMatchAux_spec pat s 0 i h
  exact ⟨by simpa using hpre, fun j hj => by simpa using hmin j (by omega)⟩

theorem mermaidImageRef_eq (h : Str → Str) (base : List Str) (fmtn code : Str) :
    mermaidImageRef h base fmtn code
      = str "![](_assets/diagrams/" ++ h code
          ++ (if fmtn = str "pdf" then str ".svg" else str ".png") ++ str ")" := by
  unfold mermaidImageRef mermaidSvgPath mermaidPngPath mermaidOutputDir
  by_cases hf : fmtn = str "pdf"
  · simp only [hf, eq_self_iff_true, if_true]
    simp [joinChar, str, List.append_assoc, List.drop_left]
  · simp only [hf, if_false]
    simp [joinChar, str, List.append_assoc, List.drop_left]

/-! ### Claim theorems for the diagram embedder -/

/-- C4 (counterexample): rendering a diagram source on a cold cache
invokes the external renderer twice — once for the vector artifact and
once for the raster artifact — so a double render issues two invocations,
not at most one as claimed (the claim's count is wrong even though the
second render is indeed a pure cache hit with zero invocations). -/
theorem claim_c4_counterexample :
    (renderDiagramFor (fun c => c) [] (str "graph TD") []).2
        + (renderDiagramFor (fun c => c) [] (str "graph TD")
            (renderDiagramFor (fun c => c) [] (str "graph TD") []).1).2 = 2 ∧
      ¬((renderDiagramFor (fun c => c) [] (str "graph TD") []).2
          + (renderDiagramFor (fun c => c) [] (str "graph TD")
              (renderDiagramFor (fun c => c) [] (str "graph TD") []).1).2 ≤ 1) := by
  constructor
  · decide
  · decide

/-- C4 (amended): rendering a source `S` issues at most one external
invocation per target artifact (at most two in total), and rendering `S`
again into the same cache root is a pure cache hit: zero external
invocations and an unchanged disk, because rendering is skipped for each
artifact that already exists. -/
theorem claim_c4 (h : Str → Str) (base : List Str) (code : Str) (disk : List FsPath) :
    (renderDiagramFor h base code disk).2 ≤ 2 ∧
      (renderDiagramFor h base code (renderDiagramFor h base code disk).1).2 = 0 ∧
      (renderDiagramFor h base code (renderDiagramFor h base code disk).1).1
        = (renderDiagramFor h base code disk).1 := by
  obtain ⟨h1, h2⟩ := renderMermaid_mem disk (mermaidSvgPath h base code)
    (mermaidPngPath h base code)
  have hhit := renderMermaid_hit (renderDiagramFor h base code disk).1
    (mermaidSvgPath h base code) (mermaidPngPath h base code) h1 h2
  refine ⟨renderMermaid_le_two disk _ _, ?_, ?_⟩
  · show (renderMermaidToSvgAndPng (renderDiagramFor h base code disk).1 _ _).2 = 0
    rw [hhit]
  · show (renderMermaidToSvgAndPng (renderDiagramFor h base code disk).1 _ _).1
        = (renderDiagramFor h base code disk).1
    rw [hhit]

/-- C7: processing one diagram block replaces exactly the first remaining
occurrence of the block's full matched text — the part of the content
before the first occurrence and the part after it are preserved, and no
earlier position matches — by an image reference that points at the
vector artifact when the (normalized) target format is `pdf` and at the
raster artifact otherwise, its path relative to the base directory. -/
theorem claim_c7 (h : Str → Str) (base : List Str) (fmtn content full code : Str)
    (i : Nat) (hi : firstMatch content full = some i) :
    processMermaidBlock h base fmtn content full code
      = content.take i
          ++ (str "![](_assets/diagrams/" ++ h code
              ++ (if fmtn = str "pdf" then str ".svg" else str ".png") ++ str ")")
          ++ content.drop (i + full.length)
    ∧ full.isPrefixOf (content.drop i) = true
    ∧ ∀ j, j < i → full.isPrefixOf (content.drop j) = false := by
  obtain ⟨hpre, hmin⟩ := firstMatch_spec hi
  refine ⟨?_, hpre, hmin⟩
  unfold processMermaidBlock replaceFirst
  rw [hi, mermaidImageRef_eq]

/-- C7 (witness): a concrete one-block document converted for `docx`
receives a raster-artifact reference in place of the block. -/
theorem claim_c7_witness :
    processMermaidBlock (fun c => c) [] (str "docx")
        (str "pre ```mermaid\nA\n``` post") (str "```mermaid\nA\n```") (str "A")
      = (str "pre ```mermaid\nA\n``` post").take 4
          ++ (str "![](_assets/diagrams/" ++ (fun c : Str => c) (str "A")
              ++ (if str "docx" = str "pdf" then str ".svg" else str ".png") ++ str ")")
          ++ (str "pre ```mermaid\nA\n``` post").drop
              (4 + (str "```mermaid\nA\n```").length) :=
  (claim_c7 (fun c => c) [] (str "docx") (str "pre ```mermaid\nA\n``` post")
    (str "```mermaid\nA\n```") (str "A") 4 (by decide)).1

end MdConverter

